import Mathlib

/-!
Shallow embedding of the `imagegen` option-resolution, payload-extraction,
asset-naming and metadata-redaction pipeline
(`src/imagegen/imagegen.py`, `src/imagegen/options.py`).

Python strings are modelled as Lean `String` (a wrapped `List Char`);
string primitives (`lower`, `strip`, `startswith`, `rfind`, slicing) are
re-implemented over the character list so that they mirror the Python
semantics on the (ASCII) data the program manipulates.  Python `dict`s are
modelled as association lists with Python's insertion-order update
semantics.  Arbitrary response payloads are modelled by the inductive
`Payload`; resolved parameter values by the inductive `Value`.
-/

namespace Imagegen

/-! ## Python string primitives -/

/-- Characters of a Python string (`String.data`). -/
def strChars (s : String) : List Char := s.data

/-- Python `str.lower()` (ASCII case folding, which is all the program needs). -/
def pyLower (s : String) : String := ⟨s.data.map Char.toLower⟩

/-- Python `s.startswith(pre)`. -/
def pyStartsWith (s pre : String) : Bool := pre.data.isPrefixOf s.data

/-- Substring search on character lists (`needle in haystack` for Python `str`). -/
def containsSub (needle : List Char) : List Char → Bool
  | [] => needle.isEmpty
  | c :: rest => needle.isPrefixOf (c :: rest) || containsSub needle rest

/-- Python `needle in s` for strings. -/
def pyContains (s needle : String) : Bool := containsSub needle.data s.data

/-- Python `str.strip()` (whitespace at both ends). -/
def pyStrip (s : String) : String :=
  ⟨((s.data.dropWhile Char.isWhitespace).reverse.dropWhile Char.isWhitespace).reverse⟩

/-- Python `str.strip(c)` for a single character `c`. -/
def pyStripChar (c : Char) (s : String) : String :=
  ⟨((s.data.dropWhile (· = c)).reverse.dropWhile (· = c)).reverse⟩

/-- Python `str.rstrip(c)` for a single character `c`. -/
def pyRstripChar (c : Char) (s : String) : String :=
  ⟨(s.data.reverse.dropWhile (· = c)).reverse⟩

/-- Index of the last occurrence of `c` in `l` (Python `str.rfind`, `none` for -1). -/
def rfindChar (c : Char) (l : List Char) : Option Nat :=
  go l 0 none
where
  go : List Char → Nat → Option Nat → Option Nat
    | [], _, acc => acc
    | x :: xs, i, acc => go xs (i + 1) (if x = c then some i else acc)

/-- Python slice `s[:n]` by code points. -/
def pyTake (s : String) (n : Nat) : String := ⟨s.data.take n⟩

/-- Python slice `s[n:]` by code points. -/
def pyDrop (s : String) (n : Nat) : String := ⟨s.data.drop n⟩

/-- Python `len(s)` (code points). -/
def pyLen (s : String) : Nat := s.data.length

/-! ## Asset Namer (`imagegen.py`) -/

/-- Embeds `_truncate_to_word_boundary(text, max_chars)`: truncate `text` to
`max_chars`, then cut back to the last space strictly after position 0 if
one exists within the truncated prefix. -/
def truncateToWordBoundary (text : String) (maxChars : Nat) : String :=
  if pyLen text ≤ maxChars then text
  else
    let truncated := pyTake text maxChars
    match rfindChar ' ' truncated.data with
    | some lastSpace => if lastSpace > 0 then pyTake truncated lastSpace else truncated
    | none => truncated

/-- Embeds `_sanitize_component(component)`: strip, lower-case alphanumerics, replace
every other character with `-`, strip `-` at both ends, fall back to
`"image"` when empty. -/
def sanitizeComponent (component : String) : String :=
  let filtered : List Char :=
    (pyStrip component).data.map (fun c => if c.isAlphanum then c.toLower else '-')
  let sanitized := pyStripChar '-' ⟨filtered⟩
  if sanitized = "" then "image" else sanitized

/-! ## Values and Python dictionaries -/

/-- Python `float()` results: a finite value (represented exactly as the
rational denoted by the accepted literal; binary rounding is not observable
by any property proved here), signed infinity, or NaN. -/
inductive PyFloat where
  | finite (q : ℚ)
  | infinite (neg : Bool)
  | nan
deriving Repr

/-- Python values stored in a resolved-parameter mapping or description
structure: strings, ints, floats, booleans, `None`, lists and dicts. -/
inductive Value where
  | str (s : String)
  | int (n : ℤ)
  | float (f : PyFloat)
  | bool (b : Bool)
  | none
  | list (items : List Value)
  | dict (entries : List (String × Value))
deriving Repr

/-- Python dict lookup `d.get(k)` (keys are unique in a Python dict; the
first binding wins). -/
def dictGet (d : List (String × Value)) (k : String) : Option Value :=
  List.lookup k d

/-- Python `d.pop(k, None)`: drop the binding for `k`. -/
def dictPop (d : List (String × Value)) (k : String) : List (String × Value) :=
  d.filter (fun p => p.1 ≠ k)

/-- Python `d[k] = v`: replace in place when `k` is present (insertion order
is preserved), append otherwise. -/
def dictSet (d : List (String × Value)) (k : String) (v : Value) :
    List (String × Value) :=
  if (List.lookup k d).isSome then
    d.map (fun p => if p.1 = k then (k, v) else p)
  else
    d ++ [(k, v)]

/-- Python `d.update(e)`: fold `dictSet` over the entries of `e`. -/
def dictUpdate (d e : List (String × Value)) : List (String × Value) :=
  e.foldl (fun acc p => dictSet acc p.1 p.2) d

/-- Keys of an association list are pairwise distinct (always true of a
mapping obtained from a Python dict). -/
def nodupKeys : List (String × Value) → Bool
  | [] => true
  | (k, _) :: rest => rest.all (fun p => p.1 ≠ k) && nodupKeys rest

/-! ## Payload Extractor (`imagegen.py`) -/

/-- An arbitrarily nested remote-response value (already unwrapped by
`_coerce_payload`): mappings, sequences, and leaves (strings, bytes and
other scalars). -/
inductive Payload where
  | str (s : String)
  | bytes (b : List Nat)
  | scalar
  | map (entries : List (String × Payload))
  | seq (items : List Payload)
deriving Repr

mutual

/-- Size measure used to justify termination of the explicit-stack traversal. -/
def psize : Payload → Nat
  | .map entries => 1 + psizeEntries entries
  | .seq items => 1 + psizeList items
  | _ => 1

def psizeEntries : List (String × Payload) → Nat
  | [] => 0
  | (_, v) :: rest => psize v + psizeEntries rest

def psizeList : List Payload → Nat
  | [] => 0
  | v :: rest => psize v + psizeList rest

end

theorem psize_pos (p : Payload) : 0 < psize p := by
  cases p <;> simp [psize]

theorem psizeList_append (a b : List Payload) :
    psizeList (a ++ b) = psizeList a + psizeList b := by
  induction a with
  | nil => simp [psizeList]
  | cons x xs ih => simp [psizeList, ih]; omega

theorem psizeList_map_snd (entries : List (String × Payload)) :
    psizeList (entries.map Prod.snd) = psizeEntries entries := by
  induction entries with
  | nil => simp [psizeList, psizeEntries]
  | cons e rest ih => simp [psizeList, psizeEntries, ih]

/-- Embeds `_iter_payload(value)`: explicit-stack traversal.  The Python loop keeps
a stack with the top at the end and pushes children in reversed order; with
the top at the head this is exactly prepending the children in document
order. -/
def iterPayload : List Payload → List Payload
  | [] => []
  | .map entries :: rest => iterPayload (entries.map Prod.snd ++ rest)
  | .seq items :: rest => iterPayload (items ++ rest)
  | .str s :: rest => .str s :: iterPayload rest
  | .bytes b :: rest => .bytes b :: iterPayload rest
  | .scalar :: rest => .scalar :: iterPayload rest
termination_by st => psizeList st
decreasing_by
  all_goals simp [psizeList, psize, psizeList_append, psizeList_map_snd]

/-- Condition under which `_extract_urls` collects a candidate leaf:
a string whose lower-cased form starts with `"http"`. -/
def isHttpCandidate (s : String) : Bool := pyStartsWith (pyLower s) "http"

/-- Collection loop of `_extract_urls`: walk the leaves, keep HTTP(S)
strings not already seen. -/
def extractGo : List Payload → List String → List String
  | [], _ => []
  | .str s :: rest, seen =>
      if isHttpCandidate s then
        if seen.contains s then extractGo rest seen
        else s :: extractGo rest (s :: seen)
      else extractGo rest seen
  | _ :: rest, seen => extractGo rest seen

/-- Embeds `_extract_urls(payload)`. -/
def extractUrls (payload : Payload) : List String :=
  extractGo (iterPayload [payload]) []

/-! ### Specification side of the extraction claim

The spec describes the output as: the string leaves in top-to-bottom,
left-to-right document order, filtered to HTTP(S) strings, with exact
duplicates removed keeping the first occurrence.  `docLeaves` and
`dedupFirst` are written from those words, to be compared with the
stack-based code above. -/

mutual

/-- Leaves of a payload in document order (spec wording). -/
def docLeaves : Payload → List Payload
  | .map entries => docLeavesEntries entries
  | .seq items => docLeavesSeq items
  | .str s => [.str s]
  | .bytes b => [.bytes b]
  | .scalar => [.scalar]

def docLeavesEntries : List (String × Payload) → List Payload
  | [] => []
  | (_, v) :: rest => docLeaves v ++ docLeavesEntries rest

def docLeavesSeq : List Payload → List Payload
  | [] => []
  | v :: rest => docLeaves v ++ docLeavesSeq rest

end

/-- A leaf's contribution to the URL list: a string leaf passing the
HTTP(S) prefix test. -/
def urlOfLeaf : Payload → Option String
  | .str s => if isHttpCandidate s then some s else none
  | _ => Option.none

/-- URL candidates in document order (spec wording). -/
def specUrlCandidates (p : Payload) : List String :=
  (docLeaves p).filterMap urlOfLeaf

/-- Remove exact duplicates keeping the first occurrence (spec wording). -/
def dedupFirstGo : List String → List String → List String
  | [], _ => []
  | x :: xs, seen =>
      if seen.contains x then dedupFirstGo xs seen
      else x :: dedupFirstGo xs (x :: seen)

/-- First-seen-order deduplication (spec wording). -/
def dedupFirst (l : List String) : List String := dedupFirstGo l []

theorem docLeavesSeq_eq (l : List Payload) :
    docLeavesSeq l = (l.map docLeaves).flatten := by
  induction l with
  | nil => simp [docLeavesSeq]
  | cons x xs ih => simp [docLeavesSeq, ih]

theorem docLeavesEntries_eq (entries : List (String × Payload)) :
    docLeavesEntries entries = ((entries.map Prod.snd).map docLeaves).flatten := by
  induction entries with
  | nil => simp [docLeavesEntries]
  | cons e rest ih => simp [docLeavesEntries, ih]

/-- The stack-based traversal visits exactly the document-order leaves. -/
theorem iterPayload_eq_docLeaves (st : List Payload) :
    iterPayload st = (st.map docLeaves).flatten := by
  induction st using iterPayload.induct with
  | case1 => simp [iterPayload]
  | case2 entries rest ih =>
      rw [iterPayload]
      simp only [ih, List.map_append, List.flatten_append, List.map_cons,
        List.flatten_cons, docLeaves, docLeavesEntries_eq]
  | case3 items rest ih =>
      rw [iterPayload]
      simp only [ih, List.map_append, List.flatten_append, List.map_cons,
        List.flatten_cons, docLeaves, docLeavesSeq_eq]
  | case4 s rest ih => simp [iterPayload, ih, docLeaves]
  | case5 b rest ih => simp [iterPayload, ih, docLeaves]
  | case6 rest ih => simp [iterPayload, ih, docLeaves]

theorem extractGo_eq_dedup (candidates : List Payload) (seen : List String) :
    extractGo candidates seen =
      dedupFirstGo (candidates.filterMap urlOfLeaf) seen := by
  induction candidates generalizing seen with
  | nil => simp [extractGo, dedupFirstGo]
  | cons c rest ih =>
      cases c with
      | str s =>
          by_cases h : isHttpCandidate s
          · simp only [extractGo, urlOfLeaf, h, if_true, List.filterMap_cons,
              dedupFirstGo]
            by_cases hs : seen.contains s <;> simp [hs, ih]
          · simp [extractGo, urlOfLeaf, h, ih]
      | bytes b => simp [extractGo, urlOfLeaf, ih]
      | scalar => simp [extractGo, urlOfLeaf, ih]
      | map entries => simp [extractGo, urlOfLeaf, ih]
      | seq items => simp [extractGo, urlOfLeaf, ih]

/-! ## Python numeric literal parsing (`int(...)`, `float(...)`)

Decimal literals with an optional single sign, optional surrounding
whitespace, and single underscores between digits, per the Python grammar.
Non-ASCII digits are outside the program's input space and are not
modelled. -/

/-- Optional leading sign; returns (is-negative, rest). -/
def parseSign : List Char → Bool × List Char
  | '+' :: r => (false, r)
  | '-' :: r => (true, r)
  | r => (false, r)

/-- Greedily consume `(digit | '_' digit)*`; returns the digits (underscores
removed) and the unconsumed rest.  A trailing underscore is left in the
rest, so requiring full consumption rejects it, as Python does. -/
def digitTail : List Char → List Char × List Char
  | '_' :: d :: rest =>
      if d.isDigit then
        let (ds, r) := digitTail rest
        (d :: ds, r)
      else ([], '_' :: d :: rest)
  | d :: rest =>
      if d.isDigit then
        let (ds, r) := digitTail rest
        (d :: ds, r)
      else ([], d :: rest)
  | [] => ([], [])

/-- A Python `digitpart`: at least one digit, single underscores allowed
between digits. -/
def pyDigitPart (l : List Char) : Option (List Char × List Char) :=
  match l with
  | c :: rest =>
      if c.isDigit then
        let (ds, r) := digitTail rest
        some (c :: ds, r)
      else Option.none
  | [] => Option.none

/-- Numeric value of a list of decimal digits. -/
def natOfDigits (ds : List Char) : Nat :=
  ds.foldl (fun a c => a * 10 + (c.toNat - 48)) 0

/-- Python `int(s)` (base 10). -/
def pyIntParse (s : String) : Option ℤ :=
  let l := (pyStrip s).data
  let (neg, rest) := parseSign l
  match pyDigitPart rest with
  | some (ds, []) => some (if neg then -(natOfDigits ds : ℤ) else (natOfDigits ds : ℤ))
  | _ => Option.none

/-- Exact rational value of a finite float literal
`[-] intDs . fracDs e exp`. -/
def floatVal (neg : Bool) (intDs fracDs : List Char) (exp : ℤ) : ℚ :=
  let mant : ℚ := (natOfDigits intDs : ℚ) + (natOfDigits fracDs : ℚ) / ((10 : ℚ) ^ fracDs.length)
  let v := mant * (10 : ℚ) ^ exp
  if neg then -v else v

/-- Exponent suffix of a float literal (after the `e`/`E`). -/
def parseExp (neg : Bool) (intDs fracDs : List Char) (l : List Char) : Option PyFloat :=
  let (eneg, r) := parseSign l
  match pyDigitPart r with
  | some (ds, []) =>
      some (.finite (floatVal neg intDs fracDs
        (if eneg then -(natOfDigits ds : ℤ) else (natOfDigits ds : ℤ))))
  | _ => Option.none

/-- Finite numeric part of Python `float(s)`:
`digitpart ['.' [digitpart]] | '.' digitpart`, optional exponent. -/
def parseFiniteFloat (neg : Bool) (l : List Char) : Option PyFloat :=
  let (intDs, r1) : List Char × List Char :=
    match pyDigitPart l with
    | some (ds, r) => (ds, r)
    | Option.none => ([], l)
  let (fracDs, r2) : List Char × List Char :=
    match r1 with
    | '.' :: rr =>
        match pyDigitPart rr with
        | some (ds, r) => (ds, r)
        | Option.none => ([], rr)
    | _ => ([], r1)
  if intDs = [] ∧ fracDs = [] then Option.none
  else
    match r2 with
    | [] => some (.finite (floatVal neg intDs fracDs 0))
    | 'e' :: r3 => parseExp neg intDs fracDs r3
    | 'E' :: r3 => parseExp neg intDs fracDs r3
    | _ => Option.none

/-- Python `float(s)`. -/
def pyFloatParse (s : String) : Option PyFloat :=
  let l := (pyStrip s).data
  let (neg, rest) := parseSign l
  let lw : String := ⟨rest.map Char.toLower⟩
  if lw = "inf" ∨ lw = "infinity" then some (.infinite neg)
  else if lw = "nan" then some .nan
  else parseFiniteFloat neg rest

/-! ## Resource-list normalization (`options.py`) -/

/-- Embeds `_split_option_values(raw_values)`: split each raw input on commas,
strip whitespace, drop empty entries, concatenate. -/
def splitOptionValues (rawValues : List String) : List String :=
  (rawValues.map (fun item =>
    ((item.data.splitOn ',').map (fun part => pyStrip ⟨part⟩)).filter
      (fun p => p ≠ ""))).flatten

/-- Python `s.rsplit(c, 1)` when `c` occurs in `s`. -/
def pyRsplitOnce (c : Char) (s : String) : Option (String × String) :=
  match rfindChar c s.data with
  | some i => some (pyTake s i, pyDrop s (i + 1))
  | Option.none => Option.none

/-- Weight-splitting step of `_normalize_external_resources`: when weights
are requested and the token contains `;`, split at the last `;`; on float
parse failure fall back to the whole original token with weight 1.0. -/
def splitResourceWeight (returnWithWeights : Bool) (item : String) :
    String × PyFloat :=
  if returnWithWeights && pyContains item ";" then
    match pyRsplitOnce ';' item with
    | some (maybePath, maybeWeight) =>
        match pyFloatParse maybeWeight with
        | some w => (maybePath, w)
        | Option.none => (item, .finite 1)
    | Option.none => (item, .finite 1)  -- unreachable: the token contains ';'
  else (item, .finite 1)

/-- URL/extension expansion step of `_normalize_external_resources`. -/
def expandResource (base defaultSuffix value : String) : String :=
  if pyContains value "://" then value
  else
    let name := if pyContains value "." then value else value ++ defaultSuffix
    base ++ name

/-- Embeds `_normalize_external_resources(raw_values, base_url=..., default_suffix=...,
return_with_weights=...)`.  When weights are not requested the returned
weight component is the untouched initial `1.0` and callers project it
away. -/
def normalizeExternalResources (returnWithWeights : Bool) (rawValues : List String)
    (baseUrl defaultSuffix : String) : List (String × PyFloat) :=
  let base := pyRstripChar '/' baseUrl ++ "/"
  (splitOptionValues rawValues).map (fun item =>
    let vw := splitResourceWeight returnWithWeights item
    (expandResource base defaultSuffix vw.1, vw.2))

/-- Embeds `_normalize_image_urls(raw_values)` with the configured source-image
base URL passed explicitly (the code reads it from the environment). -/
def normalizeImageUrls (sourceBase : String) (rawValues : List String) : List String :=
  (normalizeExternalResources false rawValues sourceBase ".jpg").map Prod.fst

/-- Embeds `_normalize_loras(raw_values)` with the configured safetensors base URL
passed explicitly. -/
def normalizeLoras (safetensorsBase : String) (rawValues : List String) : List Value :=
  (normalizeExternalResources true rawValues safetensorsBase ".safetensors").map
    (fun pw => Value.dict [("path", Value.str pw.1), ("scale", Value.float pw.2)])

/-- Splitting on commas AND newlines, written from the spec's words
(`split on commas and newlines, trim whitespace, drop empty entries`), to
be compared with `splitOptionValues`. -/
def specSplitCommasNewlines (rawValues : List String) : List String :=
  (rawValues.map (fun item =>
    ((item.data.splitOn '\n').map (fun chunk =>
      ((chunk.splitOn ',').map (fun part => pyStrip ⟨part⟩)).filter
        (fun p => p ≠ ""))).flatten)).flatten

/-! ## Image-size parsing and width/height resolution (`options.py`) -/

/-- Python string `<` (lexicographic by code point). -/
def charListLt : List Char → List Char → Bool
  | [], [] => false
  | [], _ :: _ => true
  | _ :: _, [] => false
  | a :: as, b :: bs =>
      if a < b then true
      else if b < a then false
      else charListLt as bs

/-- Insert into a `<`-sorted list of strings. -/
def insertSorted (x : String) : List String → List String
  | [] => [x]
  | y :: ys => if charListLt x.data y.data then x :: y :: ys else y :: insertSorted x ys

/-- Python `sorted(...)` on strings. -/
def sortStrings (l : List String) : List String := l.foldr insertSorted []

/-- Final fall-through message of `_parse_image_size`. -/
def sizeErrorMessage (normalizedAllowed : List String) (allowDimensions : Bool) : String :=
  let allowed :=
    if !normalizedAllowed.isEmpty then
      String.intercalate ", " (sortStrings normalizedAllowed)
    else ""
  let message := "image size must be"
  let message := if allowed ≠ "" then message ++ " one of " ++ allowed else message
  if allowDimensions then message ++ " or <width>x<height>" else message

/-- Embeds `_parse_image_size(value, allowed_sizes=..., allow_dimensions=...)`.
Errors carry the exact `argparse.ArgumentTypeError` message. -/
def parseImageSize (value : String) (allowedSizes : List String)
    (allowDimensions : Bool) : Except String String :=
  let candidate := pyStrip value
  if candidate = "" then .error "image size must not be empty"
  else
    let lowered := pyLower candidate
    let normalizedAllowed := dedupFirst (allowedSizes.map pyLower)
    if !normalizedAllowed.isEmpty && normalizedAllowed.contains lowered then
      .ok lowered
    else
      let fallback : Except String String :=
        .error (sizeErrorMessage normalizedAllowed allowDimensions)
      if allowDimensions then
        match lowered.data.splitOn 'x' with
        | [p1, p2] =>
            match pyIntParse ⟨p1⟩, pyIntParse ⟨p2⟩ with
            | some w, some h =>
                if w ≤ 0 ∨ h ≤ 0 then
                  .error "image size dimensions must be positive integers"
                else .ok (toString w ++ "x" ++ toString h)
            | _, _ => .error "image size must be <width>x<height> with integer values"
        | _ => fallback
      else fallback

/-- A resolved `image_size` parameter: a validated preset/`WxH` token, or
the structured `{width, height}` value. -/
inductive ImageSizeParam where
  | preset (s : String)
  | dims (width height : ℤ)
deriving Repr

/-- Width/height and size-preset resolution slice of `parse_args`
(options.py lines 499-521), for a model that declares both `width` and
`height` options.  `defaultSize` is what the defaults pass seeded
`params["image_size"]` with; `imageSizeValue` is the validated value of
the `--image_size` flag, if supplied.  Errors carry the exact
`model_parser.error` message. -/
def resolveImageSize (defaultSize : Option ImageSizeParam) (allowsDimensions : Bool)
    (width height : Option ℤ) (imageSizeValue : Option String) :
    Except String (Option ImageSizeParam) :=
  if width.isSome ≠ height.isSome then
    .error "--width and --height must be provided together"
  else
    match width, height with
    | some w, some h =>
        if !allowsDimensions then
          .error "--width/--height are only supported for models that allow explicit dimensions"
        else .ok (some (.dims w h))
    | _, _ =>
        match imageSizeValue with
        | some s => .ok (some (.preset s))
        | Option.none => .ok defaultSize

/-! ## Asset naming and write planning (`generate_images`) -/

/-- Last path component (`pathlib.Path(...).name` for the paths the program
builds; trailing-slash normalization is outside the input space). -/
def pathName (p : String) : String :=
  match rfindChar '/' p.data with
  | some i => pyDrop p (i + 1)
  | Option.none => p

/-- The `pathlib` suffix rule on a file name: the part from the last dot, when
that dot is neither the first nor the last character. -/
def pathSuffix (name : String) : String :=
  match rfindChar '.' name.data with
  | some i => if 0 < i ∧ i < name.data.length - 1 then pyDrop name i else ""
  | Option.none => ""

/-- Embeds `pathlib.Path(p).stem`: the final component without its suffix. -/
def pathStem (p : String) : String :=
  let name := pathName p
  let suffix := pathSuffix name
  pyTake name (name.data.length - suffix.data.length)

/-- Embeds `_base_name_from_params(parameters)`: the stem of the `file` parameter,
when it is a string. -/
def baseNameFromParams (parameters : List (String × Value)) : Option String :=
  match dictGet parameters "file" with
  | some (.str fileValue) => some (pathStem fileValue)
  | _ => Option.none

/-- Stripped prompt text from the arguments (`generate_images` lines 84-88). -/
def promptTextOf (arguments : List (String × Value)) : String :=
  match dictGet arguments "prompt" with
  | some (.str s) => pyStrip s
  | _ => ""

/-- Base filename component (`generate_images` lines 90-105).  Python
truthiness of `prompt_name` collapses `None` and the empty string. -/
def baseComponent (modelName : String) (arguments : List (String × Value)) : String :=
  let promptName := (baseNameFromParams arguments).getD ""
  let promptText := promptTextOf arguments
  if promptName ≠ "" then
    let sanitizedName := sanitizeComponent promptName
    let sanitizedText := sanitizeComponent promptText
    let truncatedText := truncateToWordBoundary sanitizedText 50
    if truncatedText ≠ "" then sanitizedName ++ "-" ++ truncatedText else sanitizedName
  else if promptText ≠ "" then
    truncateToWordBoundary (sanitizeComponent promptText) 50
  else
    sanitizeComponent modelName

/-- Drop everything up to and including the first occurrence of `needle`. -/
def dropThroughSub (needle : List Char) : List Char → List Char
  | [] => []
  | c :: rest =>
      if needle.isPrefixOf (c :: rest) then (c :: rest).drop needle.length
      else dropThroughSub needle rest

/-- First index `≥ start` holding `c`. -/
def findCharFrom (c : Char) (l : List Char) (start : Nat) : Option Nat :=
  go l 0
where
  go : List Char → Nat → Option Nat
    | [], _ => Option.none
    | x :: xs, i => if start ≤ i ∧ x = c then some i else go xs (i + 1)

/-- The `urlparse` split of `;parameters` off the last path segment. -/
def splitParams (p : String) : String :=
  let start := match rfindChar '/' p.data with
    | some slashIdx => slashIdx
    | Option.none => 0
  match findCharFrom ';' p.data start with
  | some i => pyTake p i
  | Option.none => p

/-- Embeds `urllib.parse.urlparse(url).path` for the HTTP(S) URLs the extractor
produces: drop `scheme://netloc`, cut query and fragment, split params. -/
def urlPath (url : String) : String :=
  let rest :=
    if pyContains url "://" then
      let afterScheme : String := ⟨dropThroughSub "://".data url.data⟩
      let netlocLen :=
        (afterScheme.data.takeWhile (fun c => c ≠ '/' ∧ c ≠ '?' ∧ c ≠ '#')).length
      pyDrop afterScheme netlocLen
    else url
  let noFrag : String := ⟨rest.data.takeWhile (· ≠ '#')⟩
  let noQuery : String := ⟨noFrag.data.takeWhile (· ≠ '?')⟩
  splitParams noQuery

/-- Embeds `_extension_for_url(url, content_type)`. -/
def extensionForUrl (url : String) (contentType : Option String) : String :=
  let suffix := pyLower (pathSuffix (pathName (urlPath url)))
  if suffix = ".png" ∨ suffix = ".jpg" ∨ suffix = ".jpeg" then
    if suffix = ".jpeg" then ".jpg" else suffix
  else
    let ct := contentType.getD ""
    if ct ≠ "" then
      let lowered := pyLower ct
      if pyContains lowered "png" then ".png"
      else if pyContains lowered "jpeg" || pyContains lowered "jpg" then ".jpg"
      else ".png"
    else ".png"

/-- Filename written for one URL (`generate_images` lines 110-114): shared
base component and timestamp, per-URL suffix, `.png` re-encoded as `.jpg`
when JPEG conversion is on. -/
def filenameForUrl (asJpg : Bool) (base timestamp url : String)
    (contentType : Option String) : String :=
  let suffix := extensionForUrl url contentType
  let convertToJpg := asJpg && suffix = ".png"
  let suffix := if convertToJpg then ".jpg" else suffix
  base ++ "-" ++ timestamp ++ suffix

/-- Pure write-planning slice of `generate_images` (lines 72-125): from the
coerced payload, the fixed per-call timestamp and the per-URL response
content types, the ordered list of filenames written, or the
no-images-found error raised before anything is written. -/
def planWrites (modelName : String) (asJpg : Bool)
    (arguments : List (String × Value)) (payload : Payload) (timestamp : String)
    (contentType : String → Option String) : Except String (List String) :=
  let urls := extractUrls payload
  if urls.isEmpty then .error "fal_client response did not include any image URLs"
  else
    let base := baseComponent modelName arguments
    .ok (urls.map (fun url => filenameForUrl asJpg base timestamp url (contentType url)))

/-! ## Metadata redaction and embedded description (`_apply_exif_metadata`) -/

/-- Base-URL stripping for the `image_url` / `image_urls` arguments. -/
def redactImageKey (sourceBase : String) (args : List (String × Value))
    (key : String) : List (String × Value) :=
  match dictGet args key with
  | some (.str v) =>
      if pyStartsWith v sourceBase then
        dictSet args key (.str (pyDrop v (pyLen sourceBase)))
      else args
  | some (.list entries) =>
      dictSet args key (.list (entries.map (fun e =>
        match e with
        | .str s =>
            if pyStartsWith s sourceBase then .str (pyDrop s (pyLen sourceBase)) else e
        | _ => e)))
  | _ => args

/-- Safetensors base-URL stripping for the `loras` argument. -/
def redactLoras (safetensorsBase : String) (args : List (String × Value)) :
    List (String × Value) :=
  match dictGet args "loras" with
  | some (.list entries) =>
      dictSet args "loras" (.list (entries.map (fun e =>
        match e with
        | .dict d =>
            match List.lookup "path" d with
            | some (.str p) =>
                if pyStartsWith p safetensorsBase then
                  .dict (dictSet d "path" (.str (pyDrop p (pyLen safetensorsBase))))
                else e
            | _ => e
        | .str s =>
            if pyStartsWith s safetensorsBase then
              .str (pyDrop s (pyLen safetensorsBase))
            else e
        | _ => e)))
  | _ => args

/-- Sanitized copy of the parameters (`_apply_exif_metadata` lines 299-337):
drop the local `file` reference, strip the source-image base URL, strip the
safetensors base URL. -/
def redactArguments (sourceBase safetensorsBase : String)
    (params : List (String × Value)) : List (String × Value) :=
  let args := dictPop params "file"
  let args := redactImageKey sourceBase args "image_url"
  let args := redactImageKey sourceBase args "image_urls"
  redactLoras safetensorsBase args

/-- Final description structure (`_apply_exif_metadata` lines 340-347):
the four core fields, with any caller-supplied extra metadata merged in by
`dict.update`. -/
def buildDescData (modelName endpoint call : String)
    (arguments extraMetadata : List (String × Value)) : List (String × Value) :=
  let descData : List (String × Value) :=
    [("model", .str modelName), ("endpoint", .str endpoint),
     ("call", .str call), ("arguments", .dict arguments)]
  if extraMetadata.isEmpty then descData else dictUpdate descData extraMetadata

/-- Description assembled by `_apply_exif_metadata`: `none` when metadata
embedding was not requested.  (The deterministic JSON serialization of the
structure is not modelled; the description is compared structurally.) -/
def applyExifDescription (addPromptMetadata : Bool)
    (modelName endpoint call : String) (params extraMetadata : List (String × Value))
    (sourceBase safetensorsBase : String) : Option (List (String × Value)) :=
  if addPromptMetadata then
    some (buildDescData modelName endpoint call
      (redactArguments sourceBase safetensorsBase params) extraMetadata)
  else Option.none

/-- One parameter entry is already redacted: not a `file` reference, and no
string reachable by the redaction steps carries the corresponding base-URL
prefix. -/
def entryClean (sourceBase safetensorsBase : String) : String × Value → Bool
  | (k, v) =>
    k ≠ "file" &&
    (if k = "image_url" ∨ k = "image_urls" then
      (match v with
       | .str s => !pyStartsWith s sourceBase
       | .list entries =>
           entries.all (fun e =>
             match e with
             | .str s => !pyStartsWith s sourceBase
             | _ => true)
       | _ => true)
     else true) &&
    (if k = "loras" then
      (match v with
       | .list entries =>
           entries.all (fun e =>
             match e with
             | .dict d =>
                 (match List.lookup "path" d with
                  | some (.str p) => !pyStartsWith p safetensorsBase
                  | _ => true)
             | .str s => !pyStartsWith s safetensorsBase
             | _ => true)
       | _ => true)
     else true)

/-- A parameter set with no local file reference and no entries carrying a
configured base-URL prefix (the hypothesis of the idempotence claim), as a
Python dict: keys are unique. -/
def cleanParams (sourceBase safetensorsBase : String)
    (params : List (String × Value)) : Bool :=
  nodupKeys params && params.all (entryClean sourceBase safetensorsBase)

/-- Evaluation form of `extractUrls`: the stack traversal is well-founded
recursion, so concrete runs are computed through the equivalent structural
`docLeaves`. -/
theorem extractUrls_eval (p : Payload) :
    extractUrls p = extractGo (docLeaves p) [] := by
  unfold extractUrls
  rw [iterPayload_eq_docLeaves]
  simp

/-! ## Claim theorems -/

/-- C5: for every response value, URL extraction returns exactly the leaf
strings whose case-insensitive prefix is the HTTP(S) scheme marker `http`,
found at any nesting depth in any mixture of mappings and sequences
(strings and bytes treated as leaves), with exact duplicates removed and
the remaining URLs in first-seen, top-to-bottom left-to-right document
order. -/
theorem c5_url_extraction_order_dedup (payload : Payload) :
    extractUrls payload = dedupFirst (specUrlCandidates payload) := by
  unfold extractUrls dedupFirst specUrlCandidates
  rw [extractGo_eq_dedup]
  have h : iterPayload [payload] = docLeaves payload := by
    rw [iterPayload_eq_docLeaves]; simp
  rw [h]

/-- C8: for every generation call whose response yields an empty URL list
after traversal, the call fails with the no-images-found error before any
image file is written (the plan contains no filenames), and there is no
retry path. -/
theorem c8_no_images_found (modelName : String) (asJpg : Bool)
    (arguments : List (String × Value)) (payload : Payload) (timestamp : String)
    (contentType : String → Option String)
    (h : extractUrls payload = []) :
    planWrites modelName asJpg arguments payload timestamp contentType =
      .error "fal_client response did not include any image URLs" := by
  simp [planWrites, h]

/-- Witness for C8 at a concrete URL-free payload. -/
theorem c8_no_images_found_witness :
    planWrites "schnell" true [] (Payload.map [("status", Payload.str "done")])
      "20260104_114516" (fun _ => Option.none) =
      .error "fal_client response did not include any image URLs" :=
  c8_no_images_found "schnell" true [] _ "20260104_114516" (fun _ => Option.none)
    (by rw [extractUrls_eval]; rfl)

/-- C1: in the claim's own scenario (model `"schnell"`, prompt `"hello"`,
response URLs `https://x/a.png` and `https://x/b.jpeg`, default options,
i.e. JPEG conversion on), the code computes the SAME filename for both
URLs — the base component and timestamp are shared by the whole call and
the index is discarded — so the second write silently overwrites the
first, contradicting the claimed pairwise distinctness. -/
theorem c1_same_call_filename_collision :
    planWrites "schnell" true [("prompt", Value.str "hello")]
      (Payload.map [("images", Payload.seq
        [Payload.map [("url", Payload.str "https://x/a.png")],
         Payload.map [("url", Payload.str "https://x/b.jpeg")]])])
      "20260104_114516" (fun _ => Option.none) =
      .ok ["hello-20260104_114516.jpg", "hello-20260104_114516.jpg"] ∧
    ¬ List.Nodup ["hello-20260104_114516.jpg", "hello-20260104_114516.jpg"] := by
  refine ⟨?_, by decide⟩
  simp only [planWrites, extractUrls_eval]
  rfl

/-- C6: for a model declaring both width and height, supplying exactly one
of the pair fails; supplying both when explicit dimensions are not
permitted fails; supplying both when permitted produces the structured
`{width, height}` value, which takes precedence over any size-preset value
and over the seeded default. -/
theorem c6_width_height_validation (d : Option ImageSizeParam) (allowed : Bool)
    (w h : ℤ) (s : Option String) :
    resolveImageSize d allowed (some w) Option.none s =
        .error "--width and --height must be provided together" ∧
    resolveImageSize d allowed Option.none (some h) s =
        .error "--width and --height must be provided together" ∧
    resolveImageSize d false (some w) (some h) s =
        .error "--width/--height are only supported for models that allow explicit dimensions" ∧
    resolveImageSize d true (some w) (some h) s = .ok (some (.dims w h)) :=
  ⟨rfl, rfl, rfl, rfl⟩

/-- C7 counterexample: a well-formed `WxH` token with positive integer
parts is NOT resolved to the lower-cased token verbatim; the parsed
integers are re-rendered canonically, so `"01x2"` resolves to `"1x2"`. -/
theorem c7_wxh_not_verbatim :
    parseImageSize "01x2" [] true = .ok "1x2" ∧ ("1x2" : String) ≠ "01x2" :=
  ⟨rfl, by decide⟩

/-- C2 counterexample: caller-supplied extra metadata is merged with
`dict.update`, which overrides the core `model` field. -/
theorem c2_core_field_overridden :
    List.lookup "model" (buildDescData "m" "e" "c" [] [("model", Value.str "x")]) =
      some (Value.str "x") ∧ Value.str "x" ≠ Value.str "m" := by
  refine ⟨rfl, fun hcontra => ?_⟩
  injection hcontra with hs
  exact absurd hs (by decide)

/-- C4 counterexample: the normalization splits raw inputs on commas only;
a newline does not separate tokens, so `"a\nb"` stays one token (the spec
sentence would split it in two). -/
theorem c4_newline_not_split :
    splitOptionValues ["a\nb"] = ["a\nb"] ∧
    specSplitCommasNewlines ["a\nb"] = ["a", "b"] ∧
    normalizeImageUrls "https://example.com/k/" ["a\nb"] =
      ["https://example.com/k/a\nb.jpg"] ∧
    (["https://example.com/k/a\nb.jpg"] : List String) ≠
      ["https://example.com/k/a.jpg", "https://example.com/k/b.jpg"] :=
  ⟨rfl, rfl, rfl, by decide⟩

/-- C3 counterexample: for the claim's own example prompt, the pipeline
sanitizes before truncating; sanitization replaces every space with `-`,
so the 53-character sanitized text is cut at exactly 50 characters, in the
middle of the word `padding` (between its `d` and `i`). -/
theorem c3_truncation_splits_word :
    baseComponent "schnell"
        [("prompt", Value.str "a b c-dreamy forest scene and more words here padding")] =
      "a-b-c-dreamy-forest-scene-and-more-words-here-padd" ∧
    pyLen (sanitizeComponent "a b c-dreamy forest scene and more words here padding") = 53 ∧
    (sanitizeComponent "a b c-dreamy forest scene and more words here padding").data[49]? =
      some 'd' ∧
    (sanitizeComponent "a b c-dreamy forest scene and more words here padding").data[50]? =
      some 'i' :=
  ⟨rfl, rfl, rfl, rfl⟩

theorem take_isPre {α : Type} (n : Nat) (l : List α) : l.take n <+: l :=
  ⟨l.drop n, List.take_append_drop n l⟩

/-- C3 (amended): the truncation always returns a prefix of its input of at
most 50 characters, and on text that still contains spaces — such as the
claim's raw example string — it ends exactly at a space boundary; but the
pipeline sanitizes before truncating (spaces become `-`), so the base
component derived from a long prompt is a plain 50-character cut. -/
theorem c3_truncation_amended :
    (∀ text : String, (truncateToWordBoundary text 50).data <+: text.data ∧
        pyLen (truncateToWordBoundary text 50) ≤ 50) ∧
    truncateToWordBoundary "a b c-dreamy forest scene and more words here padding" 50 =
      "a b c-dreamy forest scene and more words here" := by
  constructor
  · intro text
    unfold truncateToWordBoundary
    by_cases hlen : pyLen text ≤ 50
    · rw [if_pos hlen]
      exact ⟨⟨[], List.append_nil _⟩, hlen⟩
    · rw [if_neg hlen]
      cases hr : rfindChar ' ' (pyTake text 50).data with
      | none =>
          simp only [hr]
          refine ⟨take_isPre 50 text.data, ?_⟩
          simp [pyLen, pyTake, List.length_take]
      | some i =>
          simp only [hr]
          by_cases hi : i > 0
          · rw [if_pos hi]
            refine ⟨(take_isPre i _).trans (take_isPre 50 text.data), ?_⟩
            simp only [pyLen, pyTake, List.length_take]
            omega
          · rw [if_neg hi]
            refine ⟨take_isPre 50 text.data, ?_⟩
            simp [pyLen, pyTake, List.length_take]
  · rfl

/-- C4 (amended): list-resource normalization splits raw inputs on commas
(newlines are only trimmed at token edges, never separators), trims
whitespace, drops empty entries, and expands every token without a scheme
separator to the configured base URL plus the token, appending the default
extension when the token has no dot; the `"a,b"`/`"c"` and `"keks"`
round-trips hold. -/
theorem c4_resource_normalization :
    normalizeExternalResources false ["a,b", "c"] "https://b/" ".ext" =
      [("https://b/a.ext", .finite 1), ("https://b/b.ext", .finite 1),
       ("https://b/c.ext", .finite 1)] ∧
    normalizeImageUrls "https://example.com/k/" ["keks"] =
      ["https://example.com/k/keks.jpg"] ∧
    ∀ (base suffix t : String),
      splitOptionValues [t] = [t] →
      pyContains t "://" = false →
      normalizeExternalResources false [t] base suffix =
        [(pyRstripChar '/' base ++ "/" ++
            (if pyContains t "." then t else t ++ suffix), .finite 1)] := by
  refine ⟨rfl, rfl, ?_⟩
  intro base suffix t h1 h2
  simp [normalizeExternalResources, h1, splitResourceWeight, expandResource, h2]

/-- Witness for C4's general expansion conjunct at a concrete token. -/
theorem c4_resource_normalization_witness :
    normalizeExternalResources false ["keks2"] "https://example.com/k/" ".jpg" =
      [("https://example.com/k/keks2.jpg", PyFloat.finite 1)] :=
  c4_resource_normalization.2.2 "https://example.com/k/" ".jpg" "keks2" rfl rfl

/-- C10: a weighted token whose trailing `;w` part does not parse as a
float keeps the entire original token (including the `;w` text) with
weight 1.0, and the usual base-URL/extension expansion applies to the
whole token; in particular a loras entry becomes a path/scale mapping with
scale 1.0. -/
theorem c10_unparseable_weight (base suffix sb item path w : String)
    (h1 : splitOptionValues [item] = [item])
    (h2 : pyContains item ";" = true)
    (h3 : pyRsplitOnce ';' item = some (path, w))
    (h4 : pyFloatParse w = Option.none) :
    normalizeExternalResources true [item] base suffix =
      [(expandResource (pyRstripChar '/' base ++ "/") suffix item, .finite 1)] ∧
    normalizeLoras sb [item] =
      [Value.dict [("path",
          Value.str (expandResource (pyRstripChar '/' sb ++ "/") ".safetensors" item)),
        ("scale", Value.float (.finite 1))]] := by
  have hsplit : splitResourceWeight true item = (item, .finite 1) := by
    simp [splitResourceWeight, h2, h3, h4]
  constructor
  · simp [normalizeExternalResources, h1, hsplit]
  · simp [normalizeLoras, normalizeExternalResources, h1, hsplit]

/-- Witness for C10 at the concrete loras token `"foo;bar"`. -/
theorem c10_unparseable_weight_witness :
    normalizeLoras "https://example.com/j/" ["foo;bar"] =
      [Value.dict [("path", Value.str "https://example.com/j/foo;bar.safetensors"),
        ("scale", Value.float (PyFloat.finite 1))]] :=
  (c10_unparseable_weight "https://example.com/j/" ".safetensors"
    "https://example.com/j/" "foo;bar" "foo" "bar" rfl rfl rfl rfl).2

/-- C7 (amended): a token case-insensitively matching an allowed preset
resolves to the lower-cased token; a permitted `WxH` token with positive
integer parts resolves to the canonical decimal rendering of the parsed
integers (equal to the lower-cased token only when the parts are already
canonical); malformed and non-positive `WxH` tokens fail. -/
theorem c7_size_token_resolution :
    (∀ (value : String) (sizes : List String) (allowDim : Bool),
      pyStrip value ≠ "" →
      (dedupFirst (sizes.map pyLower)).contains (pyLower (pyStrip value)) = true →
      parseImageSize value sizes allowDim = .ok (pyLower (pyStrip value))) ∧
    parseImageSize "Square" ["square"] false = .ok "square" ∧
    parseImageSize "square" ["square"] false = .ok "square" ∧
    parseImageSize "abcxdef" [] true =
      .error "image size must be <width>x<height> with integer values" ∧
    parseImageSize "0x5" [] true =
      .error "image size dimensions must be positive integers" ∧
    parseImageSize "5x0" [] true =
      .error "image size dimensions must be positive integers" ∧
    parseImageSize "640X480" [] true = .ok "640x480" := by
  refine ⟨?_, rfl, rfl, rfl, rfl, rfl, rfl⟩
  intro value sizes allowDim hne hmem
  have hnonempty : (dedupFirst (sizes.map pyLower)).isEmpty = false := by
    cases hd : dedupFirst (sizes.map pyLower) with
    | nil => rw [hd] at hmem; simp at hmem
    | cons a l => simp
  unfold parseImageSize
  rw [if_neg hne]
  simp only [hnonempty, hmem, Bool.not_false, Bool.and_self, if_true]

/-- Witness for C7's case-insensitive preset conjunct. -/
theorem c7_size_token_resolution_witness :
    parseImageSize "Portrait_4_3" ["SQUARE", "portrait_4_3"] true =
      .ok "portrait_4_3" :=
  c7_size_token_resolution.1 "Portrait_4_3" ["SQUARE", "portrait_4_3"] true
    (by decide) rfl

/-! ### Association-list lemmas for the dict embedding -/

theorem lookup_cons (k a : String) (b : Value) (rest : List (String × Value)) :
    List.lookup k ((a, b) :: rest) = if k = a then some b else List.lookup k rest := by
  cases hc : k == a
  · have hne : ¬ k = a := by simpa using hc
    simp [List.lookup, hc, hne]
  · have heq : k = a := by simpa using hc
    simp [List.lookup, hc, heq]

theorem lookup_mem {k : String} {v : Value} :
    ∀ {d : List (String × Value)}, List.lookup k d = some v → (k, v) ∈ d := by
  intro d
  induction d with
  | nil => intro h; simp [List.lookup] at h
  | cons a rest ih =>
      obtain ⟨ak, av⟩ := a
      intro h
      rw [lookup_cons] at h
      by_cases hk : k = ak
      · rw [if_pos hk] at h
        injection h with hv
        subst hk; subst hv
        exact List.Mem.head rest
      · rw [if_neg hk] at h
        exact List.Mem.tail _ (ih h)

theorem mapSelf {α : Type} {f : α → α} :
    ∀ {l : List α}, (∀ x ∈ l, f x = x) → l.map f = l := by
  intro l h
  induction l with
  | nil => rfl
  | cons x xs ih =>
      rw [List.map_cons, h x (List.mem_cons_self x xs),
        ih (fun y hy => h y (List.mem_cons_of_mem x hy))]

theorem lookup_map_fix (k koth : String) (v : Value) (h : k ≠ koth) :
    ∀ (d : List (String × Value)),
      List.lookup k (d.map (fun p => if p.1 = koth then (koth, v) else p)) =
        List.lookup k d := by
  intro d
  induction d with
  | nil => rfl
  | cons a rest ih =>
      obtain ⟨ak, av⟩ := a
      by_cases hak : ak = koth <;> by_cases hkk : k = ak <;>
        simp_all [List.map_cons, lookup_cons]

theorem lookup_append_right_ne (k koth : String) (v : Value)
    (d : List (String × Value)) (h : k ≠ koth) :
    List.lookup k (d ++ [(koth, v)]) = List.lookup k d := by
  induction d with
  | nil => simp [lookup_cons, h]
  | cons a rest ih =>
      obtain ⟨ak, av⟩ := a
      by_cases hk : k = ak <;> simp [lookup_cons, hk, ih]

theorem map_fix_eq_self {k : String} {v : Value} :
    ∀ {d : List (String × Value)}, nodupKeys d = true →
      List.lookup k d = some v →
      d.map (fun p => if p.1 = k then (k, v) else p) = d := by
  intro d
  induction d with
  | nil => intro _ h; simp [List.lookup] at h
  | cons a rest ih =>
      obtain ⟨ak, av⟩ := a
      intro hnd hl
      have hnd' : rest.all (fun p => p.1 ≠ ak) = true ∧ nodupKeys rest = true := by
        simpa [nodupKeys, Bool.and_eq_true] using hnd
      rw [lookup_cons] at hl
      by_cases hk : k = ak
      · rw [if_pos hk] at hl
        injection hl with hv
        subst hk; subst hv
        rw [List.map_cons]
        congr 1
        · simp
        · refine mapSelf (fun p hp => ?_)
          have hne : p.1 ≠ k := by
            have := List.all_eq_true.mp hnd'.1 p hp
            simpa using this
          simp [hne]
      · rw [if_neg hk] at hl
        rw [List.map_cons]
        congr 1
        · have hne : ak ≠ k := fun hh => hk hh.symm
          simp [hne]
        · exact ih hnd'.2 hl

theorem dictSet_eq_self {k : String} {v : Value} {d : List (String × Value)}
    (hnd : nodupKeys d = true) (hl : List.lookup k d = some v) :
    dictSet d k v = d := by
  unfold dictSet
  rw [hl]
  simp only [Option.isSome_some, if_true]
  exact map_fix_eq_self hnd hl

theorem lookup_dictSet_ne (d : List (String × Value)) (k koth : String) (v : Value)
    (h : k ≠ koth) :
    List.lookup k (dictSet d koth v) = List.lookup k d := by
  unfold dictSet
  by_cases hs : (List.lookup koth d).isSome
  · rw [if_pos hs]; exact lookup_map_fix k koth v h d
  · rw [if_neg hs]; exact lookup_append_right_ne k koth v d h

theorem lookup_dictUpdate (k : String) :
    ∀ (e d : List (String × Value)), (∀ p ∈ e, p.1 ≠ k) →
      List.lookup k (dictUpdate d e) = List.lookup k d := by
  intro e
  induction e with
  | nil => intro d _; rfl
  | cons a rest ih =>
      intro d h
      obtain ⟨ak, av⟩ := a
      have h1 : ak ≠ k := h (ak, av) (List.mem_cons_self _ _)
      show List.lookup k (dictUpdate (dictSet d ak av) rest) = _
      rw [ih (dictSet d ak av) (fun p hp => h p (List.mem_cons_of_mem _ hp))]
      exact lookup_dictSet_ne d k ak av (fun hh => h1 hh.symm)

/-- C2 (amended): the extra-metadata merge is a plain `dict.update`, so
extra keys take precedence on EVERY conflict, including the four core
fields; the core fields are guaranteed unchanged exactly when the extra
metadata avoids their keys (as the caller-supplied context fields
`prompt_name` / `style_name` do). -/
theorem c2_extra_metadata_merge (m e c : String) (args extra : List (String × Value))
    (h : extra.all (fun p =>
      p.1 != "model" && p.1 != "endpoint" && p.1 != "call" && p.1 != "arguments") = true) :
    List.lookup "model" (buildDescData m e c args extra) = some (Value.str m) ∧
    List.lookup "endpoint" (buildDescData m e c args extra) = some (Value.str e) ∧
    List.lookup "call" (buildDescData m e c args extra) = some (Value.str c) ∧
    List.lookup "arguments" (buildDescData m e c args extra) = some (Value.dict args) := by
  have hclean : ∀ p ∈ extra,
      p.1 ≠ "model" ∧ p.1 ≠ "endpoint" ∧ p.1 ≠ "call" ∧ p.1 ≠ "arguments" := by
    intro p hp
    have hb := List.all_eq_true.mp h p hp
    simp only [Bool.and_eq_true, bne_iff_ne] at hb
    exact ⟨hb.1.1.1, hb.1.1.2, hb.1.2, hb.2⟩
  unfold buildDescData
  by_cases hext : extra.isEmpty
  · rw [if_pos hext]
    exact ⟨rfl, rfl, rfl, rfl⟩
  · rw [if_neg hext]
    refine ⟨?_, ?_, ?_, ?_⟩
    · rw [lookup_dictUpdate "model" extra _ (fun p hp => (hclean p hp).1)]
      simp [lookup_cons]
    · rw [lookup_dictUpdate "endpoint" extra _ (fun p hp => (hclean p hp).2.1)]
      simp [lookup_cons]
    · rw [lookup_dictUpdate "call" extra _ (fun p hp => (hclean p hp).2.2.1)]
      simp [lookup_cons]
    · rw [lookup_dictUpdate "arguments" extra _ (fun p hp => (hclean p hp).2.2.2)]
      simp [lookup_cons]

/-- Witness for C2 (amended) with context-field extra metadata. -/
theorem c2_extra_metadata_merge_witness :
    List.lookup "model"
      (buildDescData "schnell" "fal-ai/flux/schnell" "run" [("prompt", Value.str "hi")]
        [("prompt_name", Value.str "dreamy"), ("style_name", Value.str "oil")]) =
      some (Value.str "schnell") :=
  (c2_extra_metadata_merge "schnell" "fal-ai/flux/schnell" "run"
    [("prompt", Value.str "hi")]
    [("prompt_name", Value.str "dreamy"), ("style_name", Value.str "oil")] rfl).1

theorem dictPop_eq_self {d : List (String × Value)} {k : String}
    (h : ∀ p ∈ d, p.1 ≠ k) : dictPop d k = d := by
  unfold dictPop
  refine List.filter_eq_self.mpr ?_
  intro p hp
  simpa using h p hp

theorem redactImageKey_clean (sourceBase safetensorsBase : String)
    (params : List (String × Value)) (key : String)
    (hkey : key = "image_url" ∨ key = "image_urls")
    (hnd : nodupKeys params = true)
    (hall : ∀ p ∈ params, entryClean sourceBase safetensorsBase p = true) :
    redactImageKey sourceBase params key = params := by
  unfold redactImageKey
  cases hv : dictGet params key with
  | none => rfl
  | some v =>
      cases v with
      | str s =>
          have hc := hall _ (lookup_mem hv)
          have hns : pyStartsWith s sourceBase = false := by
            rcases hkey with hk | hk <;> subst hk <;> simpa [entryClean] using hc
          simp [hns]
      | list entries =>
          have hc := hall _ (lookup_mem hv)
          have hentries : ∀ e ∈ entries,
              (match e with
                | Value.str s => !pyStartsWith s sourceBase
                | _ => true) = true := by
            rcases hkey with hk | hk <;> subst hk <;>
              simpa [entryClean, List.all_eq_true] using hc
          have hmap : entries.map (fun e =>
              match e with
              | Value.str s =>
                  if pyStartsWith s sourceBase then
                    Value.str (pyDrop s (pyLen sourceBase))
                  else e
              | _ => e) = entries := by
            refine mapSelf (fun e he => ?_)
            cases e with
            | str s =>
                have hs : pyStartsWith s sourceBase = false := by
                  simpa using hentries _ he
                simp [hs]
            | int n => rfl
            | float f => rfl
            | bool b => rfl
            | none => rfl
            | list l => rfl
            | dict d => rfl
          simp only [hmap]
          exact dictSet_eq_self hnd hv
      | int n => rfl
      | float f => rfl
      | bool b => rfl
      | none => rfl
      | dict d => rfl

theorem redactLoras_clean (sourceBase safetensorsBase : String)
    (params : List (String × Value))
    (hnd : nodupKeys params = true)
    (hall : ∀ p ∈ params, entryClean sourceBase safetensorsBase p = true) :
    redactLoras safetensorsBase params = params := by
  unfold redactLoras
  cases hv : dictGet params "loras" with
  | none => rfl
  | some v =>
      cases v with
      | list entries =>
          have hc := hall _ (lookup_mem hv)
          have hentries : ∀ e ∈ entries,
              (match e with
                | Value.dict d =>
                    (match List.lookup "path" d with
                      | some (Value.str p) => !pyStartsWith p safetensorsBase
                      | _ => true)
                | Value.str s => !pyStartsWith s safetensorsBase
                | _ => true) = true := by
            simpa [entryClean, List.all_eq_true] using hc
          have hmap : entries.map (fun e =>
              match e with
              | Value.dict d =>
                  match List.lookup "path" d with
                  | some (Value.str p) =>
                      if pyStartsWith p safetensorsBase then
                        Value.dict (dictSet d "path"
                          (Value.str (pyDrop p (pyLen safetensorsBase))))
                      else e
                  | _ => e
              | Value.str s =>
                  if pyStartsWith s safetensorsBase then
                    Value.str (pyDrop s (pyLen safetensorsBase))
                  else e
              | _ => e) = entries := by
            refine mapSelf (fun e he => ?_)
            cases e with
            | dict d =>
                cases hpd : List.lookup "path" d with
                | none => simp [hpd]
                | some pv =>
                    cases pv with
                    | str p =>
                        have hs : pyStartsWith p safetensorsBase = false := by
                          simpa [hpd] using hentries _ he
                        simp [hpd, hs]
                    | int n => simp [hpd]
                    | float f => simp [hpd]
                    | bool b => simp [hpd]
                    | none => simp [hpd]
                    | list l => simp [hpd]
                    | dict dd => simp [hpd]
            | str s =>
                have hs : pyStartsWith s safetensorsBase = false := by
                  simpa using hentries _ he
                simp [hs]
            | int n => rfl
            | float f => rfl
            | bool b => rfl
            | none => rfl
            | list l => rfl
          simp only [hmap]
          exact dictSet_eq_self hnd hv
      | str s => rfl
      | int n => rfl
      | float f => rfl
      | bool b => rfl
      | none => rfl
      | dict d => rfl

/-- C9: redaction is idempotent — on a resolved parameter set with no local
file reference and no entries carrying a configured base-URL prefix, the
sanitizing copy is the identity, and the assembled description is exactly
the wrapping of the unchanged parameter set. -/
theorem c9_redaction_idempotent (srcB stB m ep cl : String)
    (params extra : List (String × Value))
    (h : cleanParams srcB stB params = true) :
    redactArguments srcB stB params = params ∧
    applyExifDescription true m ep cl params extra srcB stB =
      some (buildDescData m ep cl params extra) := by
  simp only [cleanParams, Bool.and_eq_true] at h
  have hnd : nodupKeys params = true := h.1
  have hall : ∀ p ∈ params, entryClean srcB stB p = true :=
    List.all_eq_true.mp h.2
  have hfile : ∀ p ∈ params, p.1 ≠ "file" := by
    intro p hp
    obtain ⟨k, v⟩ := p
    have hb := hall (k, v) hp
    simp only [entryClean, Bool.and_eq_true] at hb
    simpa using hb.1.1
  have hred : redactArguments srcB stB params = params := by
    show redactLoras stB (redactImageKey srcB
      (redactImageKey srcB (dictPop params "file") "image_url") "image_urls") = params
    rw [dictPop_eq_self hfile,
      redactImageKey_clean srcB stB params "image_url" (Or.inl rfl) hnd hall,
      redactImageKey_clean srcB stB params "image_urls" (Or.inr rfl) hnd hall,
      redactLoras_clean srcB stB params hnd hall]
  exact ⟨hred, by simp [applyExifDescription, hred]⟩

/-- Witness for C9 at a concrete already-redacted parameter set. -/
theorem c9_redaction_idempotent_witness :
    redactArguments "https://example.com/k/" "https://example.com/j/"
      [("prompt", Value.str "dreamy forest scene"),
       ("image_url", Value.str "cookie.jpg"),
       ("image_urls", Value.list [Value.str "a.png"]),
       ("loras", Value.list
         [Value.dict [("path", Value.str "dusty.safetensors"),
                      ("scale", Value.float (PyFloat.finite 1))],
          Value.str "x.safetensors"])] =
      [("prompt", Value.str "dreamy forest scene"),
       ("image_url", Value.str "cookie.jpg"),
       ("image_urls", Value.list [Value.str "a.png"]),
       ("loras", Value.list
         [Value.dict [("path", Value.str "dusty.safetensors"),
                      ("scale", Value.float (PyFloat.finite 1))],
          Value.str "x.safetensors"])] :=
  (c9_redaction_idempotent "https://example.com/k/" "https://example.com/j/"
    "schnell" "fal-ai/flux/schnell" "run"
    [("prompt", Value.str "dreamy forest scene"),
     ("image_url", Value.str "cookie.jpg"),
     ("image_urls", Value.list [Value.str "a.png"]),
     ("loras", Value.list
       [Value.dict [("path", Value.str "dusty.safetensors"),
                    ("scale", Value.float (PyFloat.finite 1))],
        Value.str "x.safetensors"])] [] rfl).1

end Imagegen
